import Mathlib

/-!
Shallow embedding of the bee-queue Job entity (src/lib/job.js).

Modelling conventions:
* JavaScript values that flow through the job payload and the progress field
  are modelled by the inductive `JsonVal`; JavaScript truthiness is the
  function `JsonVal.truthy`.
* Machine time (`Date.now()`) is passed explicitly as a `now : Nat` argument.
* The queue object is passed explicitly to the methods that read it; the Job
  record itself holds only the per-job state, so that job states can be
  compared for equality.
* Methods that `throw` are modelled as functions into
  `Except (String × Job) Job`: the error value carries the message together
  with the state of the job object at the moment of the throw, so that
  "state unchanged on failure" is a statable property.
* The JSON string layer of `toData`/`fromData` is modelled by the structured
  record `JobData`: the codec only ever parses text that it produced itself
  (see the comment in `Job.fromData` in the source), and JSON round-trips of
  self-produced records are lossless, so encoding is modelled as producing
  the structured record directly.
* The store-side atomic scripts `addJob` / `addDelayedJob` are not part of
  src/; they are modelled from the spec (section 4.2) below.
-/

namespace BeeQueue

/-- JSON-representable values, used for the opaque `data` payload and for
progress values. -/
inductive JsonVal : Type
  | jnull : JsonVal
  | jbool : Bool → JsonVal
  | jnum : Int → JsonVal
  | jstr : String → JsonVal
  | jarr : List JsonVal → JsonVal
  | jobj : List (String × JsonVal) → JsonVal

/-- JavaScript truthiness of a `JsonVal` (objects and arrays are always
truthy; null, false, 0 and the empty string are falsy). -/
def JsonVal.truthy : JsonVal → Bool
  | .jnull => false
  | .jbool b => b
  | .jnum n => n != 0
  | .jstr s => s != ""
  | .jarr _ => true
  | .jobj _ => true

/-- The backoff option record set by `Job#backoff`. -/
structure Backoff where
  strategy : String
  delay : Int
  deriving DecidableEq

/-- The options object as stored on a constructed job: the constructor has
already defaulted `timestamp` and `stacktraces`. -/
structure JobOptions where
  timestamp : Nat
  stacktraces : List String
  delay : Option Nat
  retries : Option Int
  timeout : Option Int
  backoff : Option Backoff
  deriving DecidableEq

/-- The options argument accepted by the constructor: every field may be
absent. An entirely absent options object is the record with all fields
`none` (the constructor replaces a falsy options argument by the empty
object). -/
structure JobOptionsArg where
  timestamp : Option Nat := none
  stacktraces : Option (List String) := none
  delay : Option Nat := none
  retries : Option Int := none
  timeout : Option Int := none
  backoff : Option Backoff := none

/-- The queue settings read by Job methods. -/
structure QueueSettings where
  removeOnSuccess : Bool
  removeOnFailure : Bool
  activateDelayedJobs : Bool
  storeJobs : Bool

/-- The part of the queue object that Job methods use: its settings and its
key-namespacing function `toKey`. -/
structure Queue where
  settings : QueueSettings
  toKey : String → String

/-- The in-memory job state (`this` of the Job class); the queue reference is
passed to methods explicitly instead of being stored. -/
structure Job where
  id : Option String
  progress : JsonVal
  data : JsonVal
  options : JobOptions
  status : String
  count : Option Int

/-- The Job constructor: `data = data || {}`, `options = options || {}`,
`options.timestamp = options.timestamp || Date.now()`,
`options.stacktraces = options.stacktraces || []`, status `created`,
progress 0. -/
def Job.construct (jobId : Option String) (data : JsonVal)
    (opts : JobOptionsArg) (now : Nat) : Job :=
  { id := jobId
    progress := .jnum 0
    data := if data.truthy then data else .jobj []
    options :=
      { timestamp :=
          match opts.timestamp with
          | some t => if t ≠ 0 then t else now
          | none => now
        stacktraces := opts.stacktraces.getD []
        delay := opts.delay
        retries := opts.retries
        timeout := opts.timeout
        backoff := opts.backoff }
    status := "created"
    count := none }

/-- JavaScript truthiness of the optional retry count (a number is truthy
iff it is nonzero). -/
def countTruthy : Option Int → Bool
  | some c => c != 0
  | none => false

/-- JavaScript truthiness of the optional delay instant. -/
def delayTruthy : Option Nat → Bool
  | some d => d != 0
  | none => false

/-- JavaScript truthiness of a possibly-null id string. -/
def idTruthy : Option String → Bool
  | some s => s != ""
  | none => false

/-- The encoded job record `\x7bdata, options, status, count?\x7d`;
`count := none` models the key being entirely absent. -/
structure JobData where
  data : JsonVal
  options : JobOptions
  status : String
  count : Option Int

/-- `Job#toData`: emits data, options and status, and the `count` key only
when `this.count` is truthy. -/
def Job.toData (j : Job) : JobData :=
  { data := j.data
    options := j.options
    status := j.status
    count := if countTruthy j.count then j.count else none }

/-- View of a stored options record as a constructor argument: every field is
present (the decoded options object is passed to the constructor as is). -/
def JobOptions.toArg (o : JobOptions) : JobOptionsArg :=
  { timestamp := some o.timestamp
    stacktraces := some o.stacktraces
    delay := o.delay
    retries := o.retries
    timeout := o.timeout
    backoff := o.backoff }

/-- `Job.fromData`: rebuilds the job through the constructor, overwrites the
status, and restores `count` only when the decoded value is truthy. -/
def Job.fromData (jobId : Option String) (d : JobData) (now : Nat) : Job :=
  let job := Job.construct jobId d.data d.options.toArg now
  let job := { job with status := d.status }
  if countTruthy d.count then { job with count := d.count } else job

/-- `Job#setId`: rejects ids whose first two characters are the reserved
recurring-job marker, otherwise assigns the id. -/
def Job.setId (j : Job) (id : String) : Except (String × Job) Job :=
  if id.take 2 = "r:" then
    .error ("IDs starting with r: are reserved for recurring jobs.", j)
  else
    .ok { j with id := some id }

/-- The interval-unit multiplier table of `Job#setInterval`: looks up the last
character of the interval string (`interval.slice(-1)`, `none` when the string
is empty) in `\x7bs: 1000, m: 60000, h: 3600000, d: 86400000\x7d`. -/
def multiplier (c : Option Char) : Option Nat :=
  if c = some 's' then some 1000
  else if c = some 'm' then some 60000
  else if c = some 'h' then some 3600000
  else if c = some 'd' then some 86400000
  else none

/-- Numeric value of a list of decimal digit characters. -/
def digitsVal (cs : List Char) : Nat :=
  cs.foldl (fun acc c => 10 * acc + (c.toNat - 48)) 0

/-- Leading sign handling of the JavaScript numeric parsers: an optional
single `-` or `+` is consumed; the Bool records whether the value is
negated. -/
def jsSignSplit : List Char → Bool × List Char
  | [] => (false, [])
  | c :: rest =>
    if c = '-' then (true, rest)
    else if c = '+' then (false, rest)
    else (false, c :: rest)

/-- The fractional part of the decimal grammar: digits after a leading
dot. -/
def fracDigits : List Char → List Char
  | '.' :: r => r.takeWhile Char.isDigit
  | _ => []

/-- JavaScript `parseFloat` on this decimal grammar: optional sign, digits,
optional fractional part, stopping at the first other character; `none`
models NaN (no digits at all). The leading-whitespace skip and the
exponent/Infinity grammar of the full builtin are not modelled; the theorems
below quantify only over digit strings, which the model parses exactly as
the builtin does. -/
def jsParseFloat (s : String) : Option Rat :=
  let p := jsSignSplit s.toList
  let intPart := p.2.takeWhile Char.isDigit
  let fracPart := fracDigits (p.2.dropWhile Char.isDigit)
  if intPart.isEmpty && fracPart.isEmpty then none
  else
    let mag : Rat := (digitsVal intPart : Rat) +
      (digitsVal fracPart : Rat) / ((10 : Rat) ^ fracPart.length)
    some (if p.1 then -mag else mag)

/-- Leading decimal digit of a natural number (fuel-driven so that it
evaluates by kernel reduction; 100 digits is far beyond any value in
range). -/
def leadingDigitAux : Nat → Nat → Nat
  | 0, n => n
  | fuel + 1, n => if n < 10 then n else leadingDigitAux fuel (n / 10)

/-- Leading decimal digit of a natural number. -/
def leadingDigit (n : Nat) : Nat :=
  leadingDigitAux 100 n

/-- JavaScript `parseInt` applied to a finite number: the number is first
converted to a string. Below 1e21 that conversion is positional and parseInt
truncates toward zero; from 1e21 on the conversion is exponential
(`d.ddd...e+NN`, mantissa in `[1, 10)`), so parseInt stops at the dot or the
exponent marker and returns only the signed leading decimal digit of the
value. The rational argument stands for the source's IEEE double; at the
magnitudes the theorems below use (safe integers, and the concrete 1e25
counterexample) the double is exact, respectively prints as `1e+25`, so the
two agree. -/
def jsParseIntOfNum (q : Rat) : Int :=
  if (if q < 0 then -q else q) < (10 : Rat) ^ 21 then
    if 0 ≤ q then ⌊q⌋ else ⌈q⌉
  else
    (if q < 0 then -1 else 1) *
      (leadingDigit ⌊if q < 0 then -q else q⌋.toNat : Int)

/-- `Number.isSafeInteger` on an integer: magnitude at most 2^53 - 1. -/
def isSafeInteger (n : Int) : Bool :=
  n.natAbs ≤ 2 ^ 53 - 1

/-- The argument of `Job#setInterval`: a string or a number (the numeric case
is restricted to integers; a non-integral number would fail the
safe-integer check exactly as NaN does). -/
inductive IntervalArg : Type
  | str : String → IntervalArg
  | num : Int → IntervalArg

/-- The safe-integer and positivity check of `Job#setInterval`, shared by
the numeric and the converted-string path; `none` models NaN, which fails
the safe-integer check. -/
def checkInterval (j : Job) (parsed : Option Int) : Except (String × Job) Int :=
  match parsed with
  | none => .error ("interval must be a positive integer", j)
  | some n =>
    if isSafeInteger n && decide (0 < n) then .ok n
    else .error ("interval must be a positive integer", j)

/-- The interval-computing and validating steps of `Job#setInterval`: unit
conversion for strings (`parseInt(parseFloat(interval) * multiplier)`, where
`parseInt` receives a number and therefore goes through string conversion,
`jsParseIntOfNum`), then the safe-integer and positivity check. -/
def computeInterval (j : Job) (arg : IntervalArg) : Except (String × Job) Int :=
  match arg with
  | .num n => checkInterval j (some n)
  | .str s =>
    match multiplier s.toList.getLast? with
    | none => .error ("only valid suffixes are s, m, h, and d.", j)
    | some m =>
      checkInterval j ((jsParseFloat s).map fun x => jsParseIntOfNum (x * (m : Rat)))

/-- The colon test of `Job#setInterval` (`this.id.indexOf(":") >= 0`):
whether the string contains the separator character. -/
def hasColon (s : String) : Bool :=
  s.toList.any fun c => c == ':'

/-- `Job#setInterval`: validates the interval, rejects queues that auto-remove
on success or failure, normalizes a null id to the empty string
(`this.id = this.id || ""`), rejects ids containing the separator, then
rewrites the id to the recurring form and defaults the delay to now + 1 when
the current delay is falsy. -/
def Job.setInterval (q : Queue) (j : Job) (arg : IntervalArg) (now : Nat) :
    Except (String × Job) Job :=
  match computeInterval j arg with
  | .error e => .error e
  | .ok n =>
    if q.settings.removeOnSuccess || q.settings.removeOnFailure then
      .error ("Recurring jobs can not be removed OnSuccess/OnFailure.", j)
    else
      let jid := j.id.getD ""
      let j1 := { j with id := some jid }
      if hasColon jid then
        .error ("ID can not have a colon", j1)
      else
        .ok { j1 with
              id := some ("r:" ++ toString n ++ ":" ++ jid)
              options := { j1.options with
                delay :=
                  if delayTruthy j1.options.delay then j1.options.delay
                  else some (now + 1) } }

/-- `Job#retries`: rejects negative values, otherwise sets
`options.retries`. -/
def Job.retries (j : Job) (n : Int) : Except (String × Job) Job :=
  if n < 0 then .error ("Retries cannot be negative", j)
  else .ok { j with options := { j.options with retries := some n } }

/-- JavaScript `parseInt(s, 10)` on the grammar relevant here: optional sign
and leading decimal digits; `none` models NaN. -/
def jsParseIntStr (s : String) : Option Int :=
  let p := jsSignSplit s.toList
  let ds := p.2.takeWhile Char.isDigit
  if ds.isEmpty then none
  else some (if p.1 then -(digitsVal ds : Int) else (digitsVal ds : Int))

/-- The argument of `Job#delayUntil`: a date-like object exposing `getTime`
(whose value is `none` for an invalid date, modelling NaN), a number, or a
string to be parsed. -/
inductive DelayArg : Type
  | date : Option Int → DelayArg
  | num : Int → DelayArg
  | str : String → DelayArg

/-- The timestamp extraction of `Job#delayUntil`: a date-like value yields
its `getTime` result; otherwise `parseInt(timestamp, 10)` (identity on
integers, leading-digit parse on strings). `none` models NaN. -/
def delayArgParse : DelayArg → Option Int
  | .date t => t
  | .num n => some n
  | .str s => jsParseIntStr s

/-- `Job#delayUntil`: rejects NaN and negative instants; sets
`options.delay` only when the instant is strictly in the future, otherwise
returns the job unchanged. -/
def Job.delayUntil (j : Job) (arg : DelayArg) (now : Nat) :
    Except (String × Job) Job :=
  match delayArgParse arg with
  | none => .error ("invalid delay timestamp", j)
  | some t =>
    if t < 0 then .error ("invalid delay timestamp", j)
    else if (now : Int) < t then
      .ok { j with options := { j.options with delay := some t.toNat } }
    else .ok j

/-- `Job#timeout`: rejects negative values, otherwise sets
`options.timeout`. -/
def Job.timeout (j : Job) (ms : Int) : Except (String × Job) Job :=
  if ms < 0 then .error ("Timeout cannot be negative", j)
  else .ok { j with options := { j.options with timeout := some ms } }

/-- `Job#backoff`. Modelled from the spec: the strategy registry
(`./backoff`, not under src/) offers a membership test only (spec section
4.4), so it is passed in as the predicate `has`. The method rejects unknown
strategies and non-positive or unsafe delays, otherwise sets
`options.backoff`. -/
def Job.backoff (has : String → Bool) (j : Job) (strategy : String)
    (delay : Int) : Except (String × Job) Job :=
  if !has strategy then .error ("unknown strategy", j)
  else if !(isSafeInteger delay && decide (0 < delay)) then
    .error ("delay must be a positive integer", j)
  else .ok { j with options := { j.options with backoff := some ⟨strategy, delay⟩ } }

/-- The payload published on the events channel by `Job#reportProgress`. -/
structure ProgressPayload where
  id : Option String
  event : String
  data : JsonVal

/-- The outcome of `Job#reportProgress`: the job state afterwards, the
asynchronous outcome (a rejected promise is an `error` value, not a throw),
and the list of (channel, payload) publications performed. -/
structure ReportProgressResult where
  job : Job
  outcome : Except String Unit
  published : List (String × ProgressPayload)

/-- `Job#reportProgress`: a null or absent value yields a rejected outcome
with no state change and no publication; any other value is stored in
`progress` and published once as `\x7bid, event: progress, data\x7d` on the
per-queue events channel. -/
def Job.reportProgress (q : Queue) (j : Job) (p : JsonVal) :
    ReportProgressResult :=
  match p with
  | .jnull =>
    { job := j
      outcome := .error "Progress cannot be empty"
      published := [] }
  | _ =>
    { job := { j with progress := p }
      outcome := .ok ()
      published := [(q.toKey "events", { id := j.id, event := "progress", data := p })] }

/-- The per-queue portion of the shared store that the enqueue scripts
touch: the id sequence counter, the id-to-encoded-record table, the waiting
sequence and the ordered delayed structure. -/
structure Store where
  nextId : Nat
  jobs : List (String × JobData)
  waiting : List String
  delayed : List (String × Nat)

/-- Whether the job table already holds a record under the given id. -/
def Store.hasJob (st : Store) (id : String) : Bool :=
  st.jobs.any fun kv => kv.1 = id

/-- Modelled from the spec: the `addJob` atomic script is store-side code not
under src/. Per spec section 4.2 it atomically assigns a sequential id when
the candidate is empty, writes the encoded record and inserts the id into
the waiting sequence, returning the id, or the falsy sentinel (`none`) when
the record was not created because the id already exists. -/
def addJob (st : Store) (candidate : String) (encoded : JobData) :
    Option String × Store :=
  let assigned :=
    if candidate = "" then
      (toString (st.nextId + 1), { st with nextId := st.nextId + 1 })
    else (candidate, st)
  let id := assigned.1
  let st1 := assigned.2
  if st1.hasJob id then (none, st1)
  else
    (some id,
      { st1 with jobs := (id, encoded) :: st1.jobs, waiting := id :: st1.waiting })

/-- Modelled from the spec: the `addDelayedJob` atomic script is store-side
code not under src/. Per spec section 4.2 it atomically assigns a sequential
id when the candidate is empty, writes the encoded record and inserts the id
into the ordered delayed structure keyed by the delay instant, returning the
id, or the falsy sentinel (`none`) when the record was not created. -/
def addDelayedJob (st : Store) (candidate : String) (encoded : JobData)
    (delay : Nat) : Option String × Store :=
  let assigned :=
    if candidate = "" then
      (toString (st.nextId + 1), { st with nextId := st.nextId + 1 })
    else (candidate, st)
  let id := assigned.1
  let st1 := assigned.2
  if st1.hasJob id then (none, st1)
  else
    (some id,
      { st1 with jobs := (id, encoded) :: st1.jobs,
                 delayed := (id, delay) :: st1.delayed })

/-- Description of the single script invocation issued by `Job#save`: which
script, with which keys and arguments. -/
inductive ScriptCall : Type
  | addJobCall : List String → String → JobData → ScriptCall
  | addDelayedJobCall : List String → String → JobData → Nat → ScriptCall

/-- Whether a script call is the immediate-enqueue operation. -/
def ScriptCall.isImmediate : ScriptCall → Bool
  | .addJobCall _ _ _ => true
  | .addDelayedJobCall _ _ _ _ => false

/-- The complete effect of one `Job#save` call: the job afterwards (with
`this.id = jobId` applied), the store afterwards, the raw script result, the
script call issued, whether the job was registered in the queue-owned job
map, and the delay instant handed to the delayed-job timer (when any). -/
structure SaveResult where
  job : Job
  store : Store
  returnedId : Option String
  call : ScriptCall
  registered : Bool
  timerScheduled : Option Nat

/-- `Job#save`: a truthy `options.delay` selects the delayed-enqueue script
with keys id/jobs/delayed/earlierDelayed plus the delay instant (and, when
`activateDelayedJobs` is set and a job was created, a timer reschedule);
otherwise the immediate-enqueue script with keys id/jobs/waiting. In either
case the continuation overwrites `this.id` with the script result
unconditionally and registers the job in the queue job map only for a
truthy result when `storeJobs` is set. -/
def Job.save (q : Queue) (j : Job) (st : Store) : SaveResult :=
  let candidate := j.id.getD ""
  let encoded := j.toData
  if delayTruthy j.options.delay then
    let d := j.options.delay.getD 0
    let r := addDelayedJob st candidate encoded d
    { job := { j with id := r.1 }
      store := r.2
      returnedId := r.1
      call := .addDelayedJobCall
        [q.toKey "id", q.toKey "jobs", q.toKey "delayed", q.toKey "earlierDelayed"]
        candidate encoded d
      registered := idTruthy r.1 && q.settings.storeJobs
      timerScheduled :=
        if q.settings.activateDelayedJobs && idTruthy r.1 then some d else none }
  else
    let r := addJob st candidate encoded
    { job := { j with id := r.1 }
      store := r.2
      returnedId := r.1
      call := .addJobCall [q.toKey "id", q.toKey "jobs", q.toKey "waiting"]
        candidate encoded
      registered := idTruthy r.1 && q.settings.storeJobs
      timerScheduled := none }

/-- A job state reachable through the documented lifecycle: the payload is
truthy (the constructor replaces any falsy payload by the empty object,
which is truthy), the construction instant was nonzero, and a retry count,
when present, is nonzero (the spec only ever stores counts of at least
one). -/
def Job.Valid (j : Job) : Prop :=
  j.data.truthy = true ∧ j.options.timestamp ≠ 0 ∧
    ∀ c : Int, j.count = some c → c ≠ 0

/-! Sample values used by witnesses and counterexamples. -/

/-- A queue with all settings off and a plain key namespace. -/
def qPlain : Queue :=
  { settings := ⟨false, false, false, false⟩
    toKey := fun k => "bq:test:" ++ k }

/-- A queue configured to auto-remove jobs on success. -/
def qAutoRemove : Queue :=
  { settings := ⟨true, false, false, false⟩
    toKey := fun k => "bq:test:" ++ k }

/-- A freshly constructed job with producer-assigned id `a`. -/
def jobA : Job :=
  { id := some "a"
    progress := .jnum 0
    data := .jobj []
    options := ⟨1, [], none, none, none, none⟩
    status := "created"
    count := none }

/-- A freshly constructed job with no id and no delay. -/
def jobFresh : Job :=
  { id := none
    progress := .jnum 0
    data := .jobj []
    options := ⟨1, [], none, none, none, none⟩
    status := "created"
    count := none }

/-- A job whose delay option is present but zero (falsy). -/
def jobZeroDelay : Job :=
  { jobFresh with options := ⟨1, [], some 0, none, none, none⟩ }

/-- A job with a truthy delay option. -/
def jobDelayed : Job :=
  { jobFresh with options := ⟨1, [], some 50, none, none, none⟩ }

/-- An empty store. -/
def emptyStore : Store := ⟨0, [], [], []⟩

/-- A store already holding a record under id `a`. -/
def storeWithA : Store := ⟨0, [("a", jobA.toData)], ["a"], []⟩

/-! Claim C8: setId. -/

/-- C8: `setId` fails exactly when the id starts with the two-character
reserved marker `r:`, and for every other string it sets the id to exactly
that string and returns the job. -/
theorem setId_reserved_iff (j : Job) (s : String) :
    ((∃ e, j.setId s = .error e) ↔ s.take 2 = "r:") ∧
    (s.take 2 ≠ "r:" → j.setId s = .ok { j with id := some s }) := by
  by_cases hs : s.take 2 = "r:" <;> simp [Job.setId, hs]

/-- C8 witness: `setId "abc"` succeeds with id `abc`, and `setId "r:abc"`
fails. -/
theorem setId_reserved_iff_witness :
    jobFresh.setId "abc" = .ok { jobFresh with id := some "abc" } ∧
      (∃ e, jobFresh.setId "r:abc" = .error e) :=
  ⟨(setId_reserved_iff jobFresh "abc").2 (by decide),
   (setId_reserved_iff jobFresh "r:abc").1.mpr (by decide)⟩

/-! Claim C7: reportProgress. -/

/-- C7: reporting a null or absent progress value yields a rejected outcome
(an error value, not a throw), leaves the job — in particular its progress
field — unchanged and publishes nothing; reporting any non-null value sets
the progress field to it and publishes exactly one notification with payload
id/progress-event/value on the per-queue events channel. -/
theorem reportProgress_behavior (q : Queue) (j : Job) (p : JsonVal) :
    (p = .jnull →
      (j.reportProgress q p).outcome = .error "Progress cannot be empty" ∧
      (j.reportProgress q p).job = j ∧
      (j.reportProgress q p).published = []) ∧
    (p ≠ .jnull →
      (j.reportProgress q p).job = { j with progress := p } ∧
      (j.reportProgress q p).outcome = .ok () ∧
      (j.reportProgress q p).published =
        [(q.toKey "events", { id := j.id, event := "progress", data := p })]) := by
  cases p <;> simp [Job.reportProgress]

/-- C7 witness: reporting 42 stores 42 and publishes one notification;
reporting null rejects and changes nothing. -/
theorem reportProgress_behavior_witness :
    ((jobFresh.reportProgress qPlain (.jnum 42)).job =
        { jobFresh with progress := .jnum 42 } ∧
      (jobFresh.reportProgress qPlain (.jnum 42)).outcome = .ok () ∧
      (jobFresh.reportProgress qPlain (.jnum 42)).published =
        [(qPlain.toKey "events",
          { id := jobFresh.id, event := "progress", data := .jnum 42 })]) ∧
    ((jobFresh.reportProgress qPlain .jnull).outcome =
        .error "Progress cannot be empty" ∧
      (jobFresh.reportProgress qPlain .jnull).job = jobFresh ∧
      (jobFresh.reportProgress qPlain .jnull).published = []) :=
  ⟨(reportProgress_behavior qPlain jobFresh (.jnum 42)).2 (by intro h; cases h),
   (reportProgress_behavior qPlain jobFresh .jnull).1 rfl⟩

/-! Claim C10: truthiness of the retry count in the codec. -/

/-- C10: the codec treats the count by truthiness, not presence: encoding
omits the count key when the count is zero exactly as when it is absent (so
a zero-count job and a countless job yield the same record), and decoding
restores the count only when the decoded value is truthy. -/
theorem count_truthiness (j : Job) (jobId : Option String) (d : JobData)
    (now : Nat) :
    ({ j with count := some 0 } : Job).toData =
        ({ j with count := none } : Job).toData ∧
    (countTruthy j.count = false → j.toData.count = none) ∧
    (Job.fromData jobId { d with count := some 0 } now =
        Job.fromData jobId { d with count := none } now) ∧
    ((Job.fromData jobId d now).count =
        if countTruthy d.count then d.count else none) := by
  refine ⟨by simp [Job.toData, countTruthy], ?_, ?_, ?_⟩
  · intro h
    simp [Job.toData, h]
  · simp [Job.fromData, countTruthy]
  · unfold Job.fromData
    split <;> simp [Job.construct]

/-- C10 witness: a job with zero count and the same job with no count encode
to the same record, and encoding a falsy count omits the key. -/
theorem count_truthiness_witness :
    ({ jobFresh with count := some 0 } : Job).toData =
        ({ jobFresh with count := none } : Job).toData ∧
      jobFresh.toData.count = none :=
  ⟨(count_truthiness jobFresh none jobFresh.toData 0).1,
   (count_truthiness jobFresh none jobFresh.toData 0).2.1 (by decide)⟩

/-! Claim C2: lossless round trip of the codec. -/

/-- C2: for every valid job, decoding the encoded record with the same id
reproduces the payload, the options, the status and the count exactly, and
the count key is entirely omitted from the record when the job has no
count. -/
theorem fromData_toData_roundtrip (j : Job) (jobId : Option String)
    (now : Nat) (h : j.Valid) :
    (Job.fromData jobId j.toData now).data = j.data ∧
    (Job.fromData jobId j.toData now).options = j.options ∧
    (Job.fromData jobId j.toData now).status = j.status ∧
    (Job.fromData jobId j.toData now).count = j.count ∧
    (j.count = none → j.toData.count = none) := by
  obtain ⟨hd, ht, hc⟩ := h
  have hopts : ∀ now' : Nat,
      (Job.construct jobId j.data j.options.toArg now').options = j.options := by
    intro now'
    simp [Job.construct, JobOptions.toArg, ht]
  have hcount : j.toData.count = j.count ∨
      (j.count = none ∧ j.toData.count = none) := by
    cases hjc : j.count with
    | none => exact Or.inr ⟨rfl, by simp [Job.toData, hjc, countTruthy]⟩
    | some c =>
      left
      have : c ≠ 0 := hc c hjc
      simp [Job.toData, hjc, countTruthy, this]
  refine ⟨?_, ?_, ?_, ?_, ?_⟩
  · simp [Job.fromData, Job.toData, Job.construct, hd]
    split <;> simp [hd]
  · unfold Job.fromData
    split <;> simpa [Job.toData] using hopts now
  · unfold Job.fromData
    split <;> simp [Job.toData]
  · unfold Job.fromData
    rcases hcount with h1 | ⟨h1, h2⟩
    · cases hjc : j.count with
      | none =>
        rw [hjc] at h1
        simp [h1, countTruthy]
        simp [Job.construct]
      | some c =>
        rw [hjc] at h1
        have hne : c ≠ 0 := hc c hjc
        simp [h1, countTruthy, hne]
    · simp [h2, countTruthy, h1]
      simp [Job.construct]
  · intro hn
    simp [Job.toData, hn, countTruthy]

/-- C2 witness: a concrete valid job round-trips exactly. -/
theorem fromData_toData_roundtrip_witness :
    (Job.fromData (some "a") jobA.toData 7).data = jobA.data ∧
    (Job.fromData (some "a") jobA.toData 7).options = jobA.options ∧
    (Job.fromData (some "a") jobA.toData 7).status = jobA.status ∧
    (Job.fromData (some "a") jobA.toData 7).count = jobA.count ∧
    (jobA.count = none → jobA.toData.count = none) :=
  fromData_toData_roundtrip jobA (some "a") 7
    ⟨rfl, by decide, fun c hcon => by simp [jobA] at hcon⟩

/-! Claim C6: delayUntil. -/

/-- C6: `delayUntil` fails exactly when the parsed instant is not a number
or negative; a parsed instant strictly in the future is stored in the delay
option, and a past or present instant leaves the job unchanged without
failing. -/
theorem delayUntil_behavior (j : Job) (arg : DelayArg) (now : Nat) :
    ((∃ e, j.delayUntil arg now = .error e) ↔
      (delayArgParse arg = none ∨
        ∃ t, delayArgParse arg = some t ∧ t < 0)) ∧
    (∀ t, delayArgParse arg = some t → (now : Int) < t →
      j.delayUntil arg now =
        .ok { j with options := { j.options with delay := some t.toNat } }) ∧
    (∀ t, delayArgParse arg = some t → 0 ≤ t → t ≤ (now : Int) →
      j.delayUntil arg now = .ok j) := by
  refine ⟨?_, ?_, ?_⟩
  · cases hp : delayArgParse arg with
    | none => simp [Job.delayUntil, hp]
    | some t =>
      by_cases h0 : t < 0
      · simp only [Job.delayUntil, hp, if_pos h0]
        constructor
        · intro _
          exact Or.inr ⟨t, rfl, h0⟩
        · intro _
          exact ⟨("invalid delay timestamp", j), rfl⟩
      · by_cases hn : (now : Int) < t <;>
          simp [Job.delayUntil, hp, h0, hn]
  · intro t hp hn
    have h0 : ¬ t < 0 := by omega
    simp [Job.delayUntil, hp, h0, hn]
  · intro t hp h0 hle
    have h0' : ¬ t < 0 := by omega
    have hn : ¬ (now : Int) < t := by omega
    simp [Job.delayUntil, hp, h0', hn]

/-- C6 witness: with the clock at 100, an instant of 200 is stored as the
delay, an instant of 50 is silently ignored, and a negative instant
fails. -/
theorem delayUntil_behavior_witness :
    (jobFresh.delayUntil (.num 200) 100 =
      .ok { jobFresh with
            options := { jobFresh.options with delay := some 200 } }) ∧
    (jobFresh.delayUntil (.num 50) 100 = .ok jobFresh) ∧
    (∃ e, jobFresh.delayUntil (.num (-3)) 100 = .error e) :=
  ⟨by
      have := (delayUntil_behavior jobFresh (.num 200) 100).2.1 200
        (by decide) (by decide)
      simpa using this,
   (delayUntil_behavior jobFresh (.num 50) 100).2.2 50 (by decide) (by decide)
      (by decide),
   (delayUntil_behavior jobFresh (.num (-3)) 100).1.mpr
      (Or.inr ⟨-3, rfl, by decide⟩)⟩

/-! Claim C3: setter failures leave the job untouched. -/

/-- Every failure of the shared interval validation carries the unchanged
job state. -/
theorem checkInterval_error_state (j : Job) (p : Option Int) (m : String)
    (j' : Job) (h : checkInterval j p = .error (m, j')) : j' = j := by
  cases p with
  | none =>
    simp [checkInterval] at h
    exact h.2.symm
  | some n =>
    by_cases hn : (isSafeInteger n && decide (0 < n)) = true
    · simp [checkInterval, hn] at h
    · simp [checkInterval, hn] at h
      exact h.2.symm

/-- Every failure of the interval computation carries the unchanged job
state. -/
theorem computeInterval_error_state (j : Job) (arg : IntervalArg)
    (m : String) (j' : Job) (h : computeInterval j arg = .error (m, j')) :
    j' = j := by
  cases arg with
  | str s =>
    cases hmul : multiplier s.toList.getLast? with
    | none =>
      simp only [computeInterval] at h
      rw [hmul] at h
      simp at h
      exact h.2.symm
    | some mult =>
      simp only [computeInterval] at h
      rw [hmul] at h
      exact checkInterval_error_state j _ m j' h
  | num n =>
    simp only [computeInterval] at h
    exact checkInterval_error_state j (some n) m j' h

/-- Replacing the id of a job by the value it already holds is the
identity. -/
theorem job_id_update_self (j : Job) (s : String) (h : j.id = some s) :
    ({ j with id := some s } : Job) = j := by
  cases j with
  | mk id progress data options status count =>
    simp only at h
    subst h
    rfl

/-- C3: each configuration setter validates synchronously (they are pure
functions of the job state, issuing no store command), and whenever one of
them fails, the job state carried at the throw equals the state before the
call — every field is untouched. -/
theorem setter_failure_preserves (q : Queue) (has : String → Bool) (j : Job)
    (i strat msg : String) (arg : IntervalArg) (darg : DelayArg) (now : Nat)
    (n ms bd : Int) (j' : Job)
    (h : j.setId i = .error (msg, j') ∨
         j.setInterval q arg now = .error (msg, j') ∨
         j.retries n = .error (msg, j') ∨
         j.delayUntil darg now = .error (msg, j') ∨
         j.timeout ms = .error (msg, j') ∨
         j.backoff has strat bd = .error (msg, j')) :
    j' = j := by
  rcases h with h | h | h | h | h | h
  · by_cases hi : i.take 2 = "r:"
    · simp [Job.setId, hi] at h
      exact h.2.symm
    · simp [Job.setId, hi] at h
  · unfold Job.setInterval at h
    cases hci : computeInterval j arg with
    | error e =>
      obtain ⟨em, ej⟩ := e
      rw [hci] at h
      simp at h
      refine computeInterval_error_state j arg msg j' ?_
      rw [hci, h.1, h.2]
    | ok k =>
      rw [hci] at h
      cases hrem : q.settings.removeOnSuccess || q.settings.removeOnFailure with
      | true =>
        simp [hrem] at h
        exact h.2.symm
      | false =>
        cases hcol : hasColon (j.id.getD "") with
        | true =>
          simp [hrem, hcol] at h
          cases hid : j.id with
          | none =>
            rw [hid] at hcol
            exact absurd hcol (by decide)
          | some s =>
            rw [hid] at h
            rw [← h.2]
            exact job_id_update_self j s hid
        | false =>
          simp [hrem, hcol] at h
  · by_cases hn : n < 0
    · simp [Job.retries, hn] at h
      exact h.2.symm
    · simp [Job.retries, hn] at h
  · cases hp : delayArgParse darg with
    | none =>
      simp [Job.delayUntil, hp] at h
      exact h.2.symm
    | some t =>
      by_cases h0 : t < 0
      · simp [Job.delayUntil, hp, h0] at h
        exact h.2.symm
      · by_cases hn : (now : Int) < t <;> simp [Job.delayUntil, hp, h0, hn] at h
  · by_cases hm : ms < 0
    · simp [Job.timeout, hm] at h
      exact h.2.symm
    · simp [Job.timeout, hm] at h
  · cases hhas : has strat with
    | false =>
      simp [Job.backoff, hhas] at h
      exact h.2.symm
    | true =>
      cases hbd : isSafeInteger bd && decide (0 < bd) with
      | false =>
        simp [Job.backoff, hhas, hbd] at h
        exact h.2.symm
      | true =>
        simp [Job.backoff, hhas, hbd] at h

/-- C3 witness: a failing retries call reports the state it was called
with. -/
theorem setter_failure_preserves_witness : jobFresh = jobFresh :=
  setter_failure_preserves qPlain (fun _ => false) jobFresh "x" "fixed"
    "Retries cannot be negative" (.num 1) (.num 0) 0 (-1) 0 1 jobFresh
    (Or.inr (Or.inr (Or.inl (by rfl))))

/-! Claim C4: setInterval rewrites the id and forces a delay. -/

/-- C4: whenever setInterval succeeds the id becomes
`r:` interval `:` original id (a null id counting as the empty string), and
a previously unset delay is set to the call instant plus one; setInterval
fails whenever the queue auto-removes on success or failure, and whenever
the current id contains the separator character. -/
theorem setInterval_recurring_id (q : Queue) (j : Job) (arg : IntervalArg)
    (now : Nat) :
    (∀ j', j.setInterval q arg now = .ok j' →
      ∃ n : Int, computeInterval j arg = .ok n ∧
        j'.id = some ("r:" ++ toString n ++ ":" ++ j.id.getD "") ∧
        (j.options.delay = none → j'.options.delay = some (now + 1))) ∧
    ((q.settings.removeOnSuccess = true ∨ q.settings.removeOnFailure = true ∨
        hasColon (j.id.getD "") = true) →
      ∃ e, j.setInterval q arg now = .error e) := by
  constructor
  · intro j' hok
    unfold Job.setInterval at hok
    cases hci : computeInterval j arg with
    | error e =>
      rw [hci] at hok
      simp at hok
    | ok n =>
      rw [hci] at hok
      refine ⟨n, rfl, ?_⟩
      cases hrem : q.settings.removeOnSuccess || q.settings.removeOnFailure with
      | true => simp [hrem] at hok
      | false =>
        cases hcol : hasColon (j.id.getD "") with
        | true => simp [hrem, hcol] at hok
        | false =>
          simp [hrem, hcol] at hok
          constructor
          · rw [← hok]
          · intro hdel
            rw [← hok]
            simp [hdel, delayTruthy]
  · intro hfail
    unfold Job.setInterval
    cases hci : computeInterval j arg with
    | error e =>
      exact ⟨e, rfl⟩
    | ok n =>
      rcases hfail with hf | hf | hf
      · refine ⟨("Recurring jobs can not be removed OnSuccess/OnFailure.", j), ?_⟩
        simp [hf]
      · refine ⟨("Recurring jobs can not be removed OnSuccess/OnFailure.", j), ?_⟩
        simp [hf]
      · cases hrem : q.settings.removeOnSuccess || q.settings.removeOnFailure with
        | true =>
          refine ⟨("Recurring jobs can not be removed OnSuccess/OnFailure.", j), ?_⟩
          simp [hrem]
        | false =>
          refine ⟨("ID can not have a colon",
            { j with id := some (j.id.getD "") }), ?_⟩
          simp [hrem, hf]

/-- The result of the successful setInterval call used by the C4 witness. -/
def recFresh : Job :=
  { jobFresh with
    id := some "r:1000:"
    options := { jobFresh.options with delay := some 6 } }

/-- C4 witness: a 1000 ms interval on a fresh job yields id `r:1000:` and
delay 6 at call instant 5; the same call on an auto-removing queue fails. -/
theorem setInterval_recurring_id_witness :
    (∃ n : Int, computeInterval jobFresh (.num 1000) = .ok n ∧
      recFresh.id = some ("r:" ++ toString n ++ ":" ++ jobFresh.id.getD "") ∧
      (jobFresh.options.delay = none →
        recFresh.options.delay = some (5 + 1))) ∧
    (∃ e, jobFresh.setInterval qAutoRemove (.num 1000) 5 = .error e) :=
  ⟨(setInterval_recurring_id qPlain jobFresh (.num 1000) 5).1 recFresh (by rfl),
   (setInterval_recurring_id qAutoRemove jobFresh (.num 1000) 5).2 (Or.inl rfl)⟩

/-! Claim C9: unit conversion of interval strings. -/

/-- A character with a multiplier entry is one of the four unit letters, so
it is neither a digit, a dot nor a sign. -/
theorem multiplier_char (u : Char) (m : Nat)
    (h : multiplier (some u) = some m) :
    u.isDigit = false ∧ u ≠ '.' ∧ u ≠ '-' ∧ u ≠ '+' := by
  have hu : u = 's' ∨ u = 'm' ∨ u = 'h' ∨ u = 'd' := by
    by_contra hcon
    push_neg at hcon
    obtain ⟨n1, n2, n3, n4⟩ := hcon
    simp [multiplier, n1, n2, n3, n4] at h
  rcases hu with rfl | rfl | rfl | rfl <;>
    exact ⟨by decide, by decide, by decide, by decide⟩

/-- takeWhile and dropWhile on an all-satisfying list followed by one
non-satisfying element. -/
theorem takeWhile_append_all (p : Char → Bool) (l : List Char) (u : Char)
    (hl : ∀ c ∈ l, p c = true) (hu : p u = false) :
    (l ++ [u]).takeWhile p = l ∧ (l ++ [u]).dropWhile p = [u] := by
  induction l with
  | nil => simp [List.takeWhile, List.dropWhile, hu]
  | cons c cs ih =>
    have hc : p c = true := hl c (by simp)
    have ih' := ih fun x hx => hl x (by simp [hx])
    simp [List.takeWhile_cons, List.dropWhile_cons, hc, ih'.1, ih'.2]

/-- The fractional-part extractor yields nothing when the remainder starts
with a non-dot character. -/
theorem fracDigits_single (u : Char) (hdot : u ≠ '.') :
    fracDigits [u] = [] := by
  unfold fracDigits
  split
  · rename_i heq
    cases heq
    exact absurd rfl hdot
  · rfl

/-- `parseFloat` of a nonempty digit string followed by one unit letter is
the numeric value of the digits. -/
theorem jsParseFloat_digits (ds : List Char) (u : Char) (hne : ds ≠ [])
    (hd : ∀ c ∈ ds, c.isDigit = true) (hu : u.isDigit = false)
    (hdot : u ≠ '.') :
    jsParseFloat (String.mk (ds ++ [u])) = some ((digitsVal ds : Rat)) := by
  cases ds with
  | nil => exact absurd rfl hne
  | cons c cs =>
    have hc : c.isDigit = true := hd c (by simp)
    have hcm : c ≠ '-' := by
      intro he
      rw [he] at hc
      exact absurd hc (by decide)
    have hcp : c ≠ '+' := by
      intro he
      rw [he] at hc
      exact absurd hc (by decide)
    have hsign : jsSignSplit ((c :: cs) ++ [u]) = (false, (c :: cs) ++ [u]) := by
      simp [jsSignSplit, hcm, hcp]
    have htw := takeWhile_append_all Char.isDigit (c :: cs) u hd hu
    have htl : (String.mk ((c :: cs) ++ [u])).toList = (c :: cs) ++ [u] := rfl
    simp only [jsParseFloat, htl, hsign, htw.1, htw.2, fracDigits_single u hdot]
    simp [digitsVal]

/-- Below the exponential-notation threshold, `parseInt` of a number is the
identity on natural casts. -/
theorem jsParseIntOfNum_natCast (n : Nat) (h : n < 10 ^ 21) :
    jsParseIntOfNum ((n : Nat) : Rat) = (n : Int) := by
  have hnn : (0 : Rat) ≤ (n : Rat) := Nat.cast_nonneg n
  have hneg : ¬((n : Rat) < 0) := not_lt.mpr hnn
  have hlt : ((n : Rat)) < (10 : Rat) ^ 21 := by
    have h1 : ((n : Rat)) < ((10 ^ 21 : Nat) : Rat) := by exact_mod_cast h
    push_cast at h1
    exact h1
  unfold jsParseIntOfNum
  simp only [if_neg hneg, if_pos hlt, if_pos hnn]
  exact Int.floor_natCast n

/-- The interval computed from a digit string with a unit letter equals the
interval computed from the corresponding number of milliseconds, provided
the product stays below the 1e21 exponential-notation threshold. -/
theorem computeInterval_digits (j : Job) (ds : List Char) (u : Char) (m : Nat)
    (hne : ds ≠ []) (hd : ∀ c ∈ ds, c.isDigit = true)
    (hm : multiplier (some u) = some m)
    (hsmall : digitsVal ds * m < 10 ^ 21) :
    computeInterval j (.str (String.mk (ds ++ [u]))) =
      computeInterval j (.num ((digitsVal ds * m : Nat) : Int)) := by
  obtain ⟨hu, hdot, _, _⟩ := multiplier_char u m hm
  have hlast : (String.mk (ds ++ [u])).toList.getLast? = some u := by
    simp
  have hpf := jsParseFloat_digits ds u hne hd hu hdot
  have hcast : (digitsVal ds : Rat) * (m : Rat) = ((digitsVal ds * m : Nat) : Rat) := by
    push_cast
    ring
  simp only [computeInterval, hlast, hm, hpf, Option.map_some']
  rw [hcast, jsParseIntOfNum_natCast _ hsmall]

/-- The job produced by the huge-interval-string counterexample: id
`r:1:` because parseInt of the exponential notation of 1e25 yields 1. -/
def recHuge : Job :=
  { jobFresh with
    id := some "r:1:"
    options := { jobFresh.options with delay := some 1 } }

/-- The digit part of the huge interval string: 1 followed by 22 zeros,
value 1e22. -/
def hugeDigits : List Char :=
  '1' :: List.replicate 22 '0'

/-- parseInt of the number 1e25 reads only the leading digit of its
exponential notation. -/
theorem jsParseIntOfNum_pow25 : jsParseIntOfNum (((10 ^ 25 : Nat) : Rat)) = 1 := by
  have h0 : (0 : Rat) ≤ ((10 ^ 25 : Nat) : Rat) := Nat.cast_nonneg _
  have hnn : ¬(((10 ^ 25 : Nat) : Rat) < 0) := not_lt.mpr h0
  have hge : ¬(((10 ^ 25 : Nat) : Rat) < (10 : Rat) ^ 21) := by
    push_cast
    norm_num
  unfold jsParseIntOfNum
  simp only [if_neg hnn, if_neg hge]
  rw [Int.floor_natCast]
  decide

/-- C9 counterexample: the digit string 1 followed by 22 zeros with unit `s`
is not converted through the multiplier table. The multiplier conversion
would give 1e25, which the numeric path rejects as unsafe, but the string
path succeeds with effective interval 1: the source feeds the product 1e25
to `parseInt`, which reads its exponential notation `1e+25` only up to the
exponent marker. The two calls therefore differ in effect, refuting the
general conversion statement. -/
theorem setInterval_huge_string_counterexample :
    computeInterval jobFresh (.str "10000000000000000000000s") = .ok 1 ∧
    computeInterval jobFresh (.num ((10 : Int) ^ 22 * 1000)) =
      .error ("interval must be a positive integer", jobFresh) ∧
    jobFresh.setInterval qPlain (.str "10000000000000000000000s") 0 =
      .ok recHuge ∧
    jobFresh.setInterval qPlain (.num ((10 : Int) ^ 22 * 1000)) 0 ≠
      jobFresh.setInterval qPlain (.str "10000000000000000000000s") 0 := by
  have hlit : ("10000000000000000000000s" : String) =
      String.mk (hugeDigits ++ ['s']) := by decide
  have hds : digitsVal hugeDigits = 10 ^ 22 := by decide
  have hpf := jsParseFloat_digits hugeDigits 's' (by decide) (by decide)
    (by decide) (by decide)
  have hlast : (String.mk (hugeDigits ++ ['s'])).toList.getLast? = some 's' := by
    simp
  have hmul : multiplier (some 's') = some 1000 := by decide
  have hq : (digitsVal hugeDigits : Rat) * ((1000 : Nat) : Rat) =
      ((10 ^ 25 : Nat) : Rat) := by
    rw [hds]
    push_cast
    norm_num
  have hci : computeInterval jobFresh (.str "10000000000000000000000s") =
      .ok 1 := by
    rw [hlit]
    simp only [computeInterval, hlast, hmul, hpf, Option.map_some']
    rw [hq, jsParseIntOfNum_pow25]
    rfl
  have hnum : computeInterval jobFresh (.num ((10 : Int) ^ 22 * 1000)) =
      .error ("interval must be a positive integer", jobFresh) := rfl
  have hsi : jobFresh.setInterval qPlain (.str "10000000000000000000000s") 0 =
      .ok recHuge := by
    unfold Job.setInterval
    rw [hci]
    rfl
  have hsn : jobFresh.setInterval qPlain (.num ((10 : Int) ^ 22 * 1000)) 0 =
      .error ("interval must be a positive integer", jobFresh) := by
    unfold Job.setInterval
    rw [hnum]
  refine ⟨hci, hnum, hsi, ?_⟩
  intro hcon
  rw [hsn, hsi] at hcon
  exact Except.noConfusion hcon

/-- C9 amended: the string `5m` yields the effective interval 300000 ms and
its effect on the job equals that of the numeric interval 300000; a digit
string with a unit letter is converted through the unit multiplier table
whenever the product stays in the safe-integer range (below 2^53, where the
source's double arithmetic is exact and its number-to-string conversion is
positional); from about 1e21 on, parseInt reads the exponential notation of
the product and the conversion law fails (see the counterexample). -/
theorem setInterval_unit_conversion (q : Queue) (j : Job) (now : Nat) :
    (computeInterval j (.str "5m") = .ok 300000 ∧
      j.setInterval q (.str "5m") now = j.setInterval q (.num 300000) now) ∧
    (∀ (ds : List Char) (u : Char) (m : Nat), ds ≠ [] →
      (∀ c ∈ ds, c.isDigit = true) → multiplier (some u) = some m →
      digitsVal ds * m < 2 ^ 53 →
      j.setInterval q (.str (String.mk (ds ++ [u]))) now =
        j.setInterval q (.num ((digitsVal ds * m : Nat) : Int)) now) := by
  have hgen : ∀ (ds : List Char) (u : Char) (m : Nat), ds ≠ [] →
      (∀ c ∈ ds, c.isDigit = true) → multiplier (some u) = some m →
      digitsVal ds * m < 2 ^ 53 →
      j.setInterval q (.str (String.mk (ds ++ [u]))) now =
        j.setInterval q (.num ((digitsVal ds * m : Nat) : Int)) now := by
    intro ds u m hne hd hm hsafe
    have hsmall : digitsVal ds * m < 10 ^ 21 :=
      lt_trans hsafe (by norm_num)
    unfold Job.setInterval
    rw [computeInterval_digits j ds u m hne hd hm hsmall]
  have hfive : computeInterval j (.str "5m") =
      computeInterval j (.num 300000) := by
    have h5 := computeInterval_digits j ['5'] 'm' 60000 (by decide) (by decide)
      (by decide) (by decide)
    have hv : ((digitsVal ['5'] * 60000 : Nat) : Int) = 300000 := by decide
    rw [hv] at h5
    exact h5
  refine ⟨⟨hfive.trans rfl, ?_⟩, hgen⟩
  unfold Job.setInterval
  rw [hfive]

/-- C9 witness: the conversion theorem applied to the concrete string
`5m`. -/
theorem setInterval_unit_conversion_witness :
    (computeInterval jobFresh (.str "5m") = .ok 300000 ∧
      jobFresh.setInterval qPlain (.str "5m") 0 =
        jobFresh.setInterval qPlain (.num 300000) 0) ∧
    jobFresh.setInterval qPlain (.str (String.mk (['5'] ++ ['m']))) 0 =
      jobFresh.setInterval qPlain (.num ((digitsVal ['5'] * 60000 : Nat) : Int)) 0 :=
  ⟨(setInterval_unit_conversion qPlain jobFresh 0).1,
   (setInterval_unit_conversion qPlain jobFresh 0).2 ['5'] 'm' 60000 (by decide)
     (by decide) (by decide) (by decide)⟩

/-! Claim C1: save on a duplicate candidate id. -/

/-- C1 counterexample: with the candidate id `a` already present in the
store, the enqueue operation returns the falsy sentinel, but save does
mutate the id field: the continuation `this.id = jobId` overwrites the id
`a` with the null result, so the id is not left unchanged as claimed. -/
theorem save_duplicate_counterexample :
    jobA.id = some "a" ∧
    (jobA.save qPlain storeWithA).returnedId = none ∧
    (jobA.save qPlain storeWithA).job.id = none :=
  ⟨rfl, rfl, rfl⟩

/-- C1 amended: with a nonempty candidate id already present in the store,
save returns the falsy sentinel and overwrites the id field with it (the id
becomes the null value, not the original candidate); on success the id is
overwritten with the never-null result of the operation. -/
theorem save_id_overwritten (q : Queue) (j : Job) (st : Store) (c : String)
    (hid : j.id = some c) (hc : c ≠ "") :
    (st.hasJob c = true →
      (Job.save q j st).returnedId = none ∧
      (Job.save q j st).job.id = none) ∧
    (∀ s, (Job.save q j st).returnedId = some s →
      (Job.save q j st).job.id = some s) := by
  have hcand : j.id.getD "" = c := by
    rw [hid]
    rfl
  constructor
  · intro hdup
    cases hdel : delayTruthy j.options.delay <;>
      simp [Job.save, addJob, addDelayedJob, hdel, hcand, hc, hdup]
  · intro s hs
    cases hdel : delayTruthy j.options.delay <;>
      cases hdup : st.hasJob c <;>
        simp [Job.save, addJob, addDelayedJob, hdel, hcand, hc, hdup] at hs ⊢ <;>
          exact hs

/-- C1 witness for the amended statement: the duplicate case at the concrete
store. -/
theorem save_id_overwritten_witness :
    (jobA.save qPlain storeWithA).returnedId = none ∧
    (jobA.save qPlain storeWithA).job.id = none :=
  (save_id_overwritten qPlain jobA storeWithA "a" rfl (by decide)).1 (by decide)

/-! Claim C5: which enqueue operation save invokes. -/

/-- C5 counterexample: a job whose delay option is present but zero takes
the immediate-enqueue path, because the code tests the delay by truthiness
(`if (this.options.delay)`), not by presence — so a set delay does not
always select the delayed-enqueue operation. -/
theorem save_zero_delay_counterexample :
    jobZeroDelay.options.delay = some 0 ∧
    (jobZeroDelay.save qPlain emptyStore).call.isImmediate = true :=
  ⟨rfl, rfl⟩

/-- C5 amended: save with a falsy delay (unset or zero) invokes only the
immediate-enqueue operation with keys id/jobs/waiting, the candidate id or
the empty string, and the encoded job; save with a nonzero delay invokes
only the delayed-enqueue operation with keys
id/jobs/delayed/earlierDelayed plus the delay instant. The invocation is a
single script call, never both. -/
theorem save_script_selection (q : Queue) (j : Job) (st : Store) :
    (delayTruthy j.options.delay = false →
      (Job.save q j st).call =
        .addJobCall [q.toKey "id", q.toKey "jobs", q.toKey "waiting"]
          (j.id.getD "") j.toData) ∧
    (∀ d, j.options.delay = some d → d ≠ 0 →
      (Job.save q j st).call =
        .addDelayedJobCall
          [q.toKey "id", q.toKey "jobs", q.toKey "delayed",
            q.toKey "earlierDelayed"]
          (j.id.getD "") j.toData d) := by
  constructor
  · intro hdel
    simp [Job.save, hdel]
  · intro d hd hd0
    simp [Job.save, hd, delayTruthy, hd0]

/-- C5 witness for the amended statement: a fresh job goes to the immediate
operation, a delayed job to the delayed operation. -/
theorem save_script_selection_witness :
    ((jobFresh.save qPlain emptyStore).call =
      .addJobCall [qPlain.toKey "id", qPlain.toKey "jobs", qPlain.toKey "waiting"]
        (jobFresh.id.getD "") jobFresh.toData) ∧
    ((jobDelayed.save qPlain emptyStore).call =
      .addDelayedJobCall
        [qPlain.toKey "id", qPlain.toKey "jobs", qPlain.toKey "delayed",
          qPlain.toKey "earlierDelayed"]
        (jobDelayed.id.getD "") jobDelayed.toData 50) :=
  ⟨(save_script_selection qPlain jobFresh emptyStore).1 rfl,
   (save_script_selection qPlain jobDelayed emptyStore).2 50 rfl (by decide)⟩

end BeeQueue
